import Mathlib

/-!
Verification of the decoding core of `openvino.genai`
(`src/lm_encoding.cpp` and `src/visual_language/pipeline.cpp`),
shallowly embedded in Lean 4.

Tensors are modelled as row-major flat buffers with an explicit shape
(`Tensor2`).  Reads past the end of a buffer are modelled by an explicit
`junk : Nat → Int` environment standing for whatever bytes happen to lie
beyond the allocation, so out-of-bounds behaviour is observable as
dependence on `junk`.
-/

namespace OvGenai

/-- A 2-D row-major tensor: shape `(rows, cols)` with a flat `Int` data
buffer (the C++ code uses `int64_t` buffers). -/
structure Tensor2 where
  rows : Nat
  cols : Nat
  data : List Int
  deriving Repr, DecidableEq

/-- A tensor is well formed when its buffer holds exactly `rows * cols`
elements. -/
def Tensor2.wf (t : Tensor2) : Prop := t.data.length = t.rows * t.cols

instance (t : Tensor2) : Decidable t.wf := by unfold Tensor2.wf; infer_instance

/-- Raw buffer read at flat index `i`: the stored value when `i` is inside
the allocation, and an arbitrary value from the surrounding memory
(`junk i`) otherwise — C++ gives no error on an out-of-bounds pointer read. -/
def Tensor2.read (t : Tensor2) (junk : Nat → Int) (i : Nat) : Int :=
  if h : i < t.data.length then t.data.get ⟨i, h⟩ else junk i

/-- Row `r` of a well-formed tensor, as a list of its `cols` entries. -/
def Tensor2.row (t : Tensor2) (r : Nat) : List Int :=
  (List.range t.cols).map fun j => t.data.getD (r * t.cols + j) 0

/-- Embeds `update_attention_mask_with_beams` (src/lm_encoding.cpp:32-50).
The C++ first snapshots the incoming mask into a fresh `original_mask`
tensor, reshapes the live mask to `(next_beams.size(), cols + 1)`, and then
for each `beam_id` copies row `next_beams[beam_id]` of the snapshot
(`memcpy` of `cols` elements from flat offset `next_beams[beam_id] * cols`)
and writes `1` into the new trailing column.  Reads from the snapshot are
raw pointer reads, so they go through `Tensor2.read` with a `junk`
environment. -/
def update_attention_mask_with_beams (t : Tensor2) (next_beams : List Nat)
    (junk : Nat → Int) : Tensor2 :=
  { rows := next_beams.length
    cols := t.cols + 1
    data := (List.range next_beams.length).flatMap fun beam_id =>
      let original_prompt_offset := (next_beams.getD beam_id 0) * t.cols
      ((List.range t.cols).map fun j =>
        t.read junk (original_prompt_offset + j)) ++ [1] }

/-- Embeds `update_position_ids` (src/lm_encoding.cpp:21-30).  For each of
the `rows` batch entries it sums the first `cols - 1` elements of that row
(`std::accumulate` from `mask_start` to `mask_start + sequence_length - 1`);
the result tensor has shape `(rows, 1)`.  The C++ accumulator starts at the
`int` literal `0`; for the 0/1-valued masks this code receives the sum never
approaches the `int` range, so it is modelled as an exact integer sum. -/
def update_position_ids (t : Tensor2) (junk : Nat → Int) : Tensor2 :=
  { rows := t.rows
    cols := 1
    data := (List.range t.rows).map fun batch =>
      ((List.range (t.cols - 1)).map fun j =>
        t.read junk (batch * t.cols + j)).sum }

/-! ### Basic buffer lemmas -/

theorem Tensor2.read_in_bounds (t : Tensor2) (junk : Nat → Int) (i : Nat)
    (h : i < t.data.length) : t.read junk i = t.data.getD i 0 := by
  unfold Tensor2.read
  rw [dif_pos h, List.getD_eq_getElem?_getD, List.getElem?_eq_getElem h]
  simp [List.get_eq_getElem]

theorem flat_index_lt (rows cols r j : Nat) (hr : r < rows) (hj : j < cols) :
    r * cols + j < rows * cols := by
  calc r * cols + j < r * cols + cols := by omega
    _ = (r + 1) * cols := by ring
    _ ≤ rows * cols := Nat.mul_le_mul_right cols hr

theorem getD_of_lt {α : Type} (l : List α) (i : Nat) (d : α) (h : i < l.length) :
    l.getD i d = l.get ⟨i, h⟩ := by
  rw [List.getD_eq_getElem?_getD, List.getElem?_eq_getElem h]
  simp [List.get_eq_getElem]

theorem getElem_eq_getD {α : Type} (l : List α) (i : Nat) (d : α)
    (h : i < l.length) : l[i] = l.getD i d := by
  rw [getD_of_lt l i d h]; rfl

/-- Reading flat index `r * L + j` out of a concatenation of chunks that all
have length `L` lands in chunk `r` at offset `j`. -/
theorem join_chunks_getD {α : Type} (L : Nat) (d : α) :
    ∀ (l : List (List α)) (r j : Nat), (∀ c ∈ l, c.length = L) →
      ∀ (hr : r < l.length), j < L →
      l.flatten.getD (r * L + j) d = (l.get ⟨r, hr⟩).getD j d := by
  intro l
  induction l with
  | nil => intro r j _ hr _; exact absurd hr (by simp)
  | cons c rest ih =>
    intro r j hc hr hj
    have hcL : c.length = L := hc c (by simp)
    cases r with
    | zero =>
      have hlt : j < c.length := by omega
      simp only [List.flatten_cons, Nat.zero_mul, Nat.zero_add]
      rw [List.getD_append _ _ _ _ hlt]
      rfl
    | succ r' =>
      have hge : c.length ≤ (r' + 1) * L + j := by
        have : L ≤ (r' + 1) * L := Nat.le_mul_of_pos_left L (Nat.succ_pos r')
        omega
      simp only [List.flatten_cons]
      rw [List.getD_append_right _ _ _ _ hge]
      have harith : (r' + 1) * L + j - c.length = r' * L + j := by
        rw [hcL]; ring_nf; omega
      rw [harith]
      exact ih r' j (fun x hx => hc x (by simp [hx])) (by simpa using hr) hj

theorem map_range_getD_self {α : Type} (l : List α) (d : α) :
    (List.range l.length).map (fun j => l.getD j d) = l := by
  apply List.ext_get
  · simp
  · intro n h1 h2
    simp only [List.get_eq_getElem, List.getElem_map, List.getElem_range]
    rw [getD_of_lt l n d h2]
    rfl

theorem sum_eq_count_one (l : List Int) (h : ∀ x ∈ l, x = 0 ∨ x = 1) :
    l.sum = (l.count 1 : Int) := by
  induction l with
  | nil => simp
  | cons a as ih =>
    have ha := h a (by simp)
    have ihs := ih (fun x hx => h x (by simp [hx]))
    rcases ha with h0 | h1
    · subst h0
      rw [List.sum_cons, ihs, List.count_cons]
      norm_num
    · subst h1
      rw [List.sum_cons, ihs, List.count_cons]
      norm_num
      omega

/-! ### C1: row-exact characterisation of `update_attention_mask_with_beams` -/

theorem update_attention_mask_data (t : Tensor2) (nb : List Nat)
    (junk : Nat → Int) :
    (update_attention_mask_with_beams t nb junk).data
      = ((List.range nb.length).map fun beam_id =>
          ((List.range t.cols).map fun j =>
            t.read junk ((nb.getD beam_id 0) * t.cols + j)) ++ [1]).flatten := by
  unfold update_attention_mask_with_beams
  simp [List.flatMap_def]

theorem update_attention_mask_row (t : Tensor2) (nb : List Nat)
    (junk : Nat → Int) (hwf : t.wf) (hin : ∀ b ∈ nb, b < t.rows)
    (r : Nat) (hr : r < nb.length) :
    (update_attention_mask_with_beams t nb junk).row r
      = t.row (nb.get ⟨r, hr⟩) ++ [1] := by
  have hb : nb.getD r 0 = nb.get ⟨r, hr⟩ := getD_of_lt nb r 0 hr
  have hbin : nb.get ⟨r, hr⟩ < t.rows := hin _ (List.get_mem nb r hr)
  unfold Tensor2.row
  rw [update_attention_mask_data]
  have hcols : (update_attention_mask_with_beams t nb junk).cols = t.cols + 1 := rfl
  rw [hcols]
  have hchunk : ∀ c ∈ (List.range nb.length).map fun beam_id =>
      ((List.range t.cols).map fun j =>
        t.read junk ((nb.getD beam_id 0) * t.cols + j)) ++ [1],
      c.length = t.cols + 1 := by
    intro c hc
    rcases List.mem_map.mp hc with ⟨i, _, rfl⟩
    simp
  have hlen : ((List.range nb.length).map fun beam_id =>
      ((List.range t.cols).map fun j =>
        t.read junk ((nb.getD beam_id 0) * t.cols + j)) ++ [1]).length = nb.length := by
    simp
  apply List.ext_get
  · simp
  · intro n h1 h2
    simp only [List.get_eq_getElem] at h2 hb
    have hn : n < t.cols + 1 := by simpa using h1
    simp only [List.get_eq_getElem, List.getElem_map, List.getElem_range]
    rw [join_chunks_getD (t.cols + 1) 0 _ r n hchunk (by omega) hn]
    have hget : ((List.range nb.length).map fun beam_id =>
        ((List.range t.cols).map fun j =>
          t.read junk ((nb.getD beam_id 0) * t.cols + j)) ++ [1]).get
          ⟨r, by omega⟩
        = ((List.range t.cols).map fun j =>
            t.read junk ((nb.getD r 0) * t.cols + j)) ++ [1] := by
      simp [List.get_eq_getElem]
    rw [hget, hb, getElem_eq_getD _ n (0 : Int) h2]
    by_cases hcase : n < t.cols
    · rw [List.getD_append _ _ _ _ (by simpa using hcase),
          List.getD_append _ _ _ _ (by simpa using hcase)]
      rw [getD_of_lt _ n 0 (by simpa using hcase),
          getD_of_lt _ n 0 (by simpa using hcase)]
      simp only [List.get_eq_getElem, List.getElem_map, List.getElem_range]
      exact Tensor2.read_in_bounds t junk _
        (hwf ▸ flat_index_lt t.rows t.cols _ n hbin hcase)
    · have hn' : n = t.cols := by omega
      subst hn'
      rw [List.getD_append_right _ _ _ _ (by simp),
          List.getD_append_right _ _ _ _ (by simp)]
      simp

theorem tensor2_eq (a b : Tensor2) (h1 : a.rows = b.rows) (h2 : a.cols = b.cols)
    (h3 : a.data = b.data) : a = b := by
  cases a; cases b; simp_all

/-- When every beam entry addresses a valid previous row, the produced data
buffer only depends on the snapshot contents, never on memory beyond the
buffer: it is the concatenation of the selected source rows, each with a
trailing `1`. -/
theorem update_attention_mask_data_in_range (t : Tensor2) (nb : List Nat)
    (junk : Nat → Int) (hwf : t.wf) (hin : ∀ b ∈ nb, b < t.rows) :
    (update_attention_mask_with_beams t nb junk).data
      = ((List.range nb.length).map fun beam_id =>
          t.row (nb.getD beam_id 0) ++ [1]).flatten := by
  rw [update_attention_mask_data]
  congr 1
  apply List.map_congr_left
  intro i hi
  have hi' : i < nb.length := List.mem_range.mp hi
  have hb : nb.getD i 0 = nb.get ⟨i, hi'⟩ := getD_of_lt nb i 0 hi'
  have hbin : nb.getD i 0 < t.rows := by
    rw [hb]; exact hin _ (List.get_mem nb i hi')
  congr 1
  unfold Tensor2.row
  apply List.map_congr_left
  intro j hj
  have hj' : j < t.cols := List.mem_range.mp hj
  exact Tensor2.read_in_bounds t junk _
    (hwf ▸ flat_index_lt t.rows t.cols _ j hbin hj')

/-- C1: for every previous mask of shape `(P, C)` and beam mapping `nb`
whose entries are valid row indices, `update_attention_mask_with_beams`
produces a well-formed mask of shape `(nb.length, C + 1)` whose row `r` is
previous row `nb[r]` with a trailing `1` appended; the `junk` memory
environment is universally quantified, so the result does not depend on
anything outside the snapshot buffer, and nothing restricts `nb` to be
duplicate-free or surjective (forking and pruning are covered). -/
theorem C1_update_attention_mask_with_beams_correct
    (t : Tensor2) (nb : List Nat) (junk : Nat → Int)
    (hwf : t.wf) (hin : ∀ b ∈ nb, b < t.rows) :
    (update_attention_mask_with_beams t nb junk).rows = nb.length ∧
    (update_attention_mask_with_beams t nb junk).cols = t.cols + 1 ∧
    (update_attention_mask_with_beams t nb junk).wf ∧
    ∀ r (hr : r < nb.length),
      (update_attention_mask_with_beams t nb junk).row r
        = t.row (nb.get ⟨r, hr⟩) ++ [1] := by
  refine ⟨rfl, rfl, ?_, update_attention_mask_row t nb junk hwf hin⟩
  show (update_attention_mask_with_beams t nb junk).data.length
    = (update_attention_mask_with_beams t nb junk).rows
      * (update_attention_mask_with_beams t nb junk).cols
  rw [update_attention_mask_data, List.length_flatten, List.map_map]
  have hconst : ((fun c : List Int => c.length) ∘ fun beam_id =>
      ((List.range t.cols).map fun j =>
        t.read junk ((nb.getD beam_id 0) * t.cols + j)) ++ [1])
      = fun _ => t.cols + 1 := by
    funext i; simp
  rw [hconst]
  show ((List.range nb.length).map fun _ => t.cols + 1).sum = nb.length * (t.cols + 1)
  simp [List.map_const', List.sum_replicate, smul_eq_mul]

def c1Mask : Tensor2 := ⟨2, 2, [1, 0, 1, 1]⟩

def c1Junk : Nat → Int := fun _ => 37

/-- C1 witness: a concrete forking-and-pruning beam mapping `[1, 1, 0]`
over a `(2, 2)` mask, with the hypotheses discharged by evaluation. -/
theorem C1_witness :
    c1Mask.wf ∧ (∀ b ∈ ([1, 1, 0] : List Nat), b < c1Mask.rows) ∧
    ((update_attention_mask_with_beams c1Mask [1, 1, 0] c1Junk).rows = 3 ∧
     (update_attention_mask_with_beams c1Mask [1, 1, 0] c1Junk).cols
       = c1Mask.cols + 1 ∧
     (update_attention_mask_with_beams c1Mask [1, 1, 0] c1Junk).wf ∧
     ∀ r (hr : r < ([1, 1, 0] : List Nat).length),
       (update_attention_mask_with_beams c1Mask [1, 1, 0] c1Junk).row r
         = c1Mask.row (([1, 1, 0] : List Nat).get ⟨r, hr⟩) ++ [1]) :=
  ⟨by decide, by decide,
    C1_update_attention_mask_with_beams_correct c1Mask [1, 1, 0] c1Junk
      (by decide) (by decide)⟩

/-! ### C8: missing bounds check on the beam values -/

def c8Mask : Tensor2 := ⟨1, 1, [7]⟩

/-- C8 counterexample: with a previous mask of one row and the out-of-range
beam entry `1`, `update_attention_mask_with_beams` does not fail — it
returns a full `(1, 2)` mask whose contents depend on the memory lying
beyond the snapshot buffer (two different `junk` memories give two
different results), i.e. the out-of-range entry is silently read out of
bounds instead of being rejected. -/
theorem C8_counterexample :
    ¬ ((1 : Nat) < c8Mask.rows) ∧
    (update_attention_mask_with_beams c8Mask [1] (fun _ => 5)).rows = 1 ∧
    update_attention_mask_with_beams c8Mask [1] (fun _ => 5)
      ≠ update_attention_mask_with_beams c8Mask [1] (fun _ => 9) := by
  decide

/-- C8 (amended): `update_attention_mask_with_beams` performs no bounds
check on the beam values, but under the precondition that every entry of
`next_beams` is in range for the previous row count, no out-of-range access
occurs: the result is the same for every memory environment beyond the
buffer. -/
theorem C8_in_range_no_out_of_bounds_access
    (t : Tensor2) (nb : List Nat) (hwf : t.wf)
    (hin : ∀ b ∈ nb, b < t.rows) (junk junk' : Nat → Int) :
    update_attention_mask_with_beams t nb junk
      = update_attention_mask_with_beams t nb junk' := by
  refine tensor2_eq _ _ rfl rfl ?_
  rw [update_attention_mask_data_in_range t nb junk hwf hin,
      update_attention_mask_data_in_range t nb junk' hwf hin]

/-- C8 witness for the amended theorem, at a concrete in-range mapping. -/
theorem C8_witness :
    c1Mask.wf ∧ (∀ b ∈ ([0, 1] : List Nat), b < c1Mask.rows) ∧
    update_attention_mask_with_beams c1Mask [0, 1] (fun _ => 5)
      = update_attention_mask_with_beams c1Mask [0, 1] (fun _ => 9) :=
  ⟨by decide, by decide,
    C8_in_range_no_out_of_bounds_access c1Mask [0, 1] (by decide) (by decide)
      (fun _ => 5) (fun _ => 9)⟩

/-! ### C2: `update_position_ids` -/

/-- C2: for every well-formed 0/1 attention mask with `rows ≥ 1` and
`cols ≥ 1`, `update_position_ids` yields a well-formed `(rows, 1)` tensor
whose entry at row `r` is the number of `1`s among the first `cols - 1`
entries of row `r` of the mask. -/
theorem C2_update_position_ids_correct (t : Tensor2) (junk : Nat → Int)
    (hwf : t.wf) (hrows : 1 ≤ t.rows) (hcols : 1 ≤ t.cols)
    (h01 : ∀ x ∈ t.data, x = 0 ∨ x = 1) :
    (update_position_ids t junk).rows = t.rows ∧
    (update_position_ids t junk).cols = 1 ∧
    (update_position_ids t junk).wf ∧
    ∀ r, r < t.rows →
      (update_position_ids t junk).data.getD r 0
        = (((t.row r).take (t.cols - 1)).count 1 : Int) := by
  refine ⟨rfl, rfl, ?_, ?_⟩
  · show (update_position_ids t junk).data.length = t.rows * 1
    unfold update_position_ids
    simp
  · intro r hr
    unfold update_position_ids
    simp only
    rw [getD_of_lt _ r 0 (by simpa using hr)]
    simp only [List.get_eq_getElem, List.getElem_map, List.getElem_range]
    have hread : ((List.range (t.cols - 1)).map fun j =>
        t.read junk (r * t.cols + j))
        = (List.range (t.cols - 1)).map fun j => t.data.getD (r * t.cols + j) 0 := by
      apply List.map_congr_left
      intro j hj
      have hj' : j < t.cols := by
        have := List.mem_range.mp hj; omega
      exact Tensor2.read_in_bounds t junk _
        (hwf ▸ flat_index_lt t.rows t.cols r j hr hj')
    have hrow : (t.row r).take (t.cols - 1)
        = (List.range (t.cols - 1)).map fun j => t.data.getD (r * t.cols + j) 0 := by
      unfold Tensor2.row
      rw [← List.map_take, List.take_range, Nat.min_eq_left (by omega)]
    rw [hread, hrow]
    apply sum_eq_count_one
    intro x hx
    rcases List.mem_map.mp hx with ⟨j, hj, rfl⟩
    have hj' : j < t.cols := by
      have := List.mem_range.mp hj; omega
    have hidx : r * t.cols + j < t.data.length :=
      hwf ▸ flat_index_lt t.rows t.cols r j hr hj'
    rw [getD_of_lt _ _ 0 hidx]
    exact h01 _ (List.get_mem t.data _ hidx)

def c2Mask : Tensor2 := ⟨2, 3, [1, 1, 0, 1, 0, 1]⟩

/-- C2 witness: a concrete `(2, 3)` mask; row sums over the first two
columns are 2 and 1. -/
theorem C2_witness :
    c2Mask.wf ∧ 1 ≤ c2Mask.rows ∧ 1 ≤ c2Mask.cols ∧
    (∀ x ∈ c2Mask.data, x = 0 ∨ x = 1) ∧
    ((update_position_ids c2Mask c1Junk).rows = c2Mask.rows ∧
     (update_position_ids c2Mask c1Junk).cols = 1 ∧
     (update_position_ids c2Mask c1Junk).wf ∧
     ∀ r, r < c2Mask.rows →
       (update_position_ids c2Mask c1Junk).data.getD r 0
         = (((c2Mask.row r).take (c2Mask.cols - 1)).count 1 : Int)) :=
  ⟨by decide, by decide, by decide, by decide,
    C2_update_position_ids_correct c2Mask c1Junk (by decide) (by decide)
      (by decide) (by decide)⟩

/-! ### C3: the per-group beam-offset table -/

/-- A sequence group as seen by the offset bookkeeping of
`get_lm_encoded_results`: its request id and its current number of running
hypotheses. -/
structure BeamGroup where
  request_id : Nat
  num_running_seqs : Nat
  deriving Repr, DecidableEq

/-- Association-list model of `std::map<size_t, size_t>`. -/
def OffsetMap := List (Nat × Nat)

/-- `operator[]` read: the stored value, or `0` for an absent key (C++
`operator[]` value-initialises an absent entry to `0`; the inserted zero is
indistinguishable from the default in every later read, so the model reads
without inserting). -/
def mapGetD (m : List (Nat × Nat)) (k : Nat) : Nat :=
  match m.find? (fun p => p.1 == k) with
  | some p => p.2
  | none => 0

/-- `operator[]` followed by assignment: overwrite the key if present, else
append it. -/
def mapSet (m : List (Nat × Nat)) (k v : Nat) : List (Nat × Nat) :=
  if m.any (fun p => p.1 == k) then
    m.map fun p => if p.1 == k then (k, v) else p
  else m ++ [(k, v)]

/-- `std::map::insert`: does nothing when the key is already present. -/
def mapInsert (m : List (Nat × Nat)) (k v : Nat) : List (Nat × Nat) :=
  if m.any (fun p => p.1 == k) then m else m ++ [(k, v)]

/-- Embeds src/lm_encoding.cpp:96-98: after the prompt step the offset of
the group at batch index `i` is `i` (one prompt row per group), inserted
under the group's request id. -/
def beam_offets_init (groups : List BeamGroup) : List (Nat × Nat) :=
  groups.enum.foldl (fun m p => mapInsert m p.2.request_id p.1) []

/-- `active.at(i)->num_running_seqs()` as a total lookup. -/
def numRunningAt (active : List BeamGroup) (i : Nat) : Nat :=
  ((active.get? i).map BeamGroup.num_running_seqs).getD 0

/-- Embeds src/lm_encoding.cpp:137-140 verbatim, including the read
`beam_offets[i - 1]` that is keyed by the loop index `i - 1` rather than by
`active_sequence_groups.at(i - 1)->get_request_id()`:

    beam_offets[active_sequence_groups.at(i)->get_request_id()] =
        i == 0 ? 0 : (active_sequence_groups.at(i - 1)->num_running_seqs()
                      + beam_offets[i - 1]);
-/
def recompute_beam_offets (active : List BeamGroup)
    (m0 : List (Nat × Nat)) : List (Nat × Nat) :=
  active.enum.foldl
    (fun m p =>
      if p.1 = 0 then mapSet m p.2.request_id 0
      else mapSet m p.2.request_id
        (numRunningAt active (p.1 - 1) + mapGetD m (p.1 - 1)))
    m0

/-- The offset the spec prescribes (§4.2 step c): the running prefix sum of
the running-hypothesis counts of the groups preceding index `i` in the
current active-group list. -/
def spec_prefix_offset (active : List BeamGroup) (i : Nat) : Nat :=
  ((active.take i).map BeamGroup.num_running_seqs).sum

/-- C3: the recomputed offset table diverges from the prefix-sum invariant,
because the read `beam_offets[i - 1]` looks up the loop index `i - 1` as a
*key* where the map is keyed by request id.
(i) With three active groups of request ids 10, 20, 30 and one running
hypothesis each, the code stores offset 1 for the third group — key `1` is
absent and value-initialised to 0 — while the prefix sum of the preceding
running-hypothesis counts is 2.
(ii) With canonical request ids 0..3, one hypothesis each: after the
recompute over all four, group 0 finishes and the next recompute runs over
the active list [group 1, group 2, group 3]; the code stores offset 1 for
group 3 — key `1` is group 1's map entry, freshly overwritten to 0 by this
very loop — while the prefix sum over the current active list is 2.
(iii) The claim's own two-group scenario (A with 1 hypothesis before B, B
pruning from 3 to 2 hypotheses) does hold: A keeps offset 0 and B keeps
offset 1 across the recomputes. -/
theorem C3_beam_offset_divergence :
    (mapGetD
      (recompute_beam_offets [⟨10, 1⟩, ⟨20, 1⟩, ⟨30, 1⟩]
        (beam_offets_init [⟨10, 1⟩, ⟨20, 1⟩, ⟨30, 1⟩])) 30 = 1
     ∧ spec_prefix_offset [⟨10, 1⟩, ⟨20, 1⟩, ⟨30, 1⟩] 2 = 2)
    ∧ (mapGetD
        (recompute_beam_offets [⟨1, 1⟩, ⟨2, 1⟩, ⟨3, 1⟩]
          (recompute_beam_offets [⟨0, 1⟩, ⟨1, 1⟩, ⟨2, 1⟩, ⟨3, 1⟩]
            (beam_offets_init [⟨0, 1⟩, ⟨1, 1⟩, ⟨2, 1⟩, ⟨3, 1⟩]))) 3 = 1
     ∧ spec_prefix_offset [⟨1, 1⟩, ⟨2, 1⟩, ⟨3, 1⟩] 2 = 2)
    ∧ (mapGetD (recompute_beam_offets [⟨0, 1⟩, ⟨1, 3⟩]
        (beam_offets_init [⟨0, 1⟩, ⟨1, 3⟩])) 0 = 0
     ∧ mapGetD (recompute_beam_offets [⟨0, 1⟩, ⟨1, 3⟩]
        (beam_offets_init [⟨0, 1⟩, ⟨1, 3⟩])) 1 = 1
     ∧ mapGetD (recompute_beam_offets [⟨0, 1⟩, ⟨1, 2⟩]
        (recompute_beam_offets [⟨0, 1⟩, ⟨1, 3⟩]
          (beam_offets_init [⟨0, 1⟩, ⟨1, 3⟩]))) 0 = 0
     ∧ mapGetD (recompute_beam_offets [⟨0, 1⟩, ⟨1, 2⟩]
        (recompute_beam_offets [⟨0, 1⟩, ⟨1, 3⟩]
          (beam_offets_init [⟨0, 1⟩, ⟨1, 3⟩]))) 1 = 1) := by
  decide

/-! ### C4: per-step input construction -/

/-- One hypothesis: its stable id and its generated token ids
(spec §3, `Sequence`). -/
structure Seq where
  id : Nat
  generated_ids : List Int
  deriving Repr, DecidableEq

/-- One logical request as the decode loop sees it (spec §3,
`SequenceGroup`): request id, prompt token ids, the processed- and
scheduled-token counters, and the running hypotheses. -/
structure SeqGroup where
  request_id : Nat
  prompt_ids : List Int
  num_processed_tokens : Nat
  num_scheduled_tokens : Nat
  running : List Seq
  deriving Repr, DecidableEq

/-- Modelled from the spec: `SequenceGroup::update_processed_tokens_num`
(declared outside src/) records the processed-token counter — the prompt
step stores the deficit `prompt_len - sequence_len`, "the excess accounts
for tokens already represented in persisted cache" (spec §4.2 step 2). -/
def SeqGroup.update_processed_tokens_num (g : SeqGroup) (n : Nat) : SeqGroup :=
  { g with num_processed_tokens := n }

/-- Modelled from the spec: `SequenceGroup::schedule_tokens` (declared
outside src/) marks `n` more tokens as scheduled for the current step
(spec §4.2 step 2 "Mark that many tokens as scheduled"). -/
def SeqGroup.schedule_tokens (g : SeqGroup) (n : Nat) : SeqGroup :=
  { g with num_scheduled_tokens := g.num_scheduled_tokens + n }

/-- Embeds src/lm_encoding.cpp:90-94: after the prompt infer with logits of
sequence length `sequence_len`, each group records the deficit
`prompt_len - sequence_len` as its processed count and schedules
`sequence_len` tokens. -/
def prompt_phase_update (sequence_len : Nat) (g : SeqGroup) : SeqGroup :=
  (g.update_processed_tokens_num (g.prompt_ids.length - sequence_len)).schedule_tokens
    sequence_len

/-- Modelled from the spec: the per-group bookkeeping effect of
`sampler.sample` (Sampler lives outside src/) — it "applies a token" to
every running hypothesis (spec §6) and retires the scheduled tokens into
the processed counter, which counts "tokens already consumed by the compute
engine" (spec §3). -/
def sample_bookkeeping (tok : Int) (g : SeqGroup) : SeqGroup :=
  { g with
    num_processed_tokens := g.num_processed_tokens + g.num_scheduled_tokens
    num_scheduled_tokens := 0
    running := g.running.map fun s =>
      { s with generated_ids := s.generated_ids ++ [tok] } }

/-- Embeds the inner loop of src/lm_encoding.cpp:123-131: the row of input
token ids written for one running hypothesis — for each scheduled token the
absolute position is `num_processed_tokens + token_id`, and the entry is
the prompt token at that position while it lies inside the prompt, else the
generated token at `position - prompt_len`. -/
def input_row (g : SeqGroup) (s : Seq) : List Int :=
  (List.range g.num_scheduled_tokens).map fun token_id =>
    let position_id := g.num_processed_tokens + token_id
    if position_id < g.prompt_ids.length then g.prompt_ids.getD position_id 0
    else s.generated_ids.getD (position_id - g.prompt_ids.length) 0

/-- Embeds src/lm_encoding.cpp:111-135: the flat input-id tensor, one row
per (running hypothesis, scheduled token) pair, in group order then
hypothesis order. -/
def build_input_ids (groups : List SeqGroup) : List Int :=
  groups.flatMap fun g => g.running.flatMap fun s => input_row g s

/-- Embeds src/lm_encoding.cpp:103-109: the aggregated row count
`Σ scheduled · running` over the active groups. -/
def total_num_tokens (groups : List SeqGroup) : Nat :=
  (groups.map fun g => g.num_scheduled_tokens * g.running.length).sum

theorem length_flatMap {α β : Type} (l : List α) (f : α → List β) :
    (l.flatMap f).length = (l.map fun a => (f a).length).sum := by
  induction l with
  | nil => rfl
  | cons a as ih => simp [List.flatMap_cons, ih]

/-- The state of a fresh single-hypothesis group whose whole prompt was
consumed by the prompt step (`sequence_len = prompt_len`), after the
prompt-phase bookkeeping, the prompt-step sampling, and the loop's
`schedule_tokens(1)`. -/
def c4_boundary_group (rid sid : Nat) (prompt : List Int) (tok : Int) : SeqGroup :=
  (sample_bookkeeping tok (prompt_phase_update prompt.length
    (SeqGroup.mk rid prompt 0 0 [Seq.mk sid []]))).schedule_tokens 1

/-- C4: (a) the input tensor has one row per (running hypothesis, scheduled
token) pair — `Σ scheduled · running` rows over the active groups; (b) the
entry for scheduled token `tid` of a hypothesis is the prompt token at the
absolute position `processed + tid` while that position is inside the
prompt, else the generated token at `position - prompt_len`; (c) a fresh
group whose prompt length equals the first step's sequence length records a
zero processed-token deficit at the prompt step, and its first generation
row is built purely from generated tokens — every position clears the
prompt and indexes the generated buffer in bounds. -/
theorem C4_input_ids_construction (groups : List SeqGroup) :
    ((build_input_ids groups).length = total_num_tokens groups
     ∧ ∀ g ∈ groups, ∀ s ∈ g.running, ∀ tid, tid < g.num_scheduled_tokens →
         (input_row g s).getD tid 0
           = (if g.num_processed_tokens + tid < g.prompt_ids.length
              then g.prompt_ids.getD (g.num_processed_tokens + tid) 0
              else s.generated_ids.getD
                (g.num_processed_tokens + tid - g.prompt_ids.length) 0))
    ∧ ∀ (rid sid : Nat) (prompt : List Int) (tok : Int),
        (prompt_phase_update prompt.length
          (SeqGroup.mk rid prompt 0 0 [Seq.mk sid []])).num_processed_tokens = 0
        ∧ ∀ s ∈ (c4_boundary_group rid sid prompt tok).running,
            (∀ tid, tid < (c4_boundary_group rid sid prompt tok).num_scheduled_tokens →
               (c4_boundary_group rid sid prompt tok).prompt_ids.length
                   ≤ (c4_boundary_group rid sid prompt tok).num_processed_tokens + tid
               ∧ (c4_boundary_group rid sid prompt tok).num_processed_tokens + tid
                   - (c4_boundary_group rid sid prompt tok).prompt_ids.length
                   < s.generated_ids.length)
            ∧ input_row (c4_boundary_group rid sid prompt tok) s = [tok] := by
  refine ⟨⟨?_, ?_⟩, ?_⟩
  · unfold build_input_ids total_num_tokens
    rw [length_flatMap]
    congr 1
    apply List.map_congr_left
    intro g _
    rw [length_flatMap]
    have hlen : ∀ s ∈ g.running,
        (input_row g s).length = g.num_scheduled_tokens := by
      intro s _; unfold input_row; simp
    rw [List.map_congr_left hlen, List.map_const', List.sum_replicate,
        smul_eq_mul, mul_comm]
  · intro g _ s _ tid htid
    unfold input_row
    rw [getD_of_lt _ tid 0 (by simpa using htid)]
    simp [List.get_eq_getElem]
  · intro rid sid prompt tok
    constructor
    · unfold prompt_phase_update SeqGroup.update_processed_tokens_num
        SeqGroup.schedule_tokens
      simp
    · intro s hs
      have hg1 : c4_boundary_group rid sid prompt tok
          = SeqGroup.mk rid prompt prompt.length 1 [Seq.mk sid [tok]] := by
        unfold c4_boundary_group prompt_phase_update
          SeqGroup.update_processed_tokens_num
          SeqGroup.schedule_tokens sample_bookkeeping
        simp
      rw [hg1] at hs ⊢
      have hs' : s = Seq.mk sid [tok] := by simpa using hs
      subst hs'
      refine ⟨?_, ?_⟩
      · intro tid htid
        have htid' : tid = 0 := by simpa using htid
        subst htid'
        constructor
        · simp
        · simp
      · unfold input_row
        simp [show List.range 1 = [0] from rfl]

def c4Group : SeqGroup :=
  ⟨0, [11, 12, 13], 2, 2, [⟨0, [21, 22]⟩, ⟨1, [31, 32]⟩]⟩

/-- C4 witness: a concrete two-hypothesis group straddling the
prompt/generated boundary (processed = 2, prompt length 3, two scheduled
tokens), instantiating part (b) at its rows. -/
theorem C4_witness :
    c4Group ∈ [c4Group] ∧ (⟨0, [21, 22]⟩ : Seq) ∈ c4Group.running
    ∧ (1 : Nat) < c4Group.num_scheduled_tokens
    ∧ (build_input_ids [c4Group]).length = total_num_tokens [c4Group]
    ∧ (input_row c4Group ⟨0, [21, 22]⟩).getD 1 0
        = (if c4Group.num_processed_tokens + 1 < c4Group.prompt_ids.length
           then c4Group.prompt_ids.getD (c4Group.num_processed_tokens + 1) 0
           else (⟨0, [21, 22]⟩ : Seq).generated_ids.getD
             (c4Group.num_processed_tokens + 1 - c4Group.prompt_ids.length) 0) :=
  ⟨by decide, by decide, by decide,
    (C4_input_ids_construction [c4Group]).1.1,
    (C4_input_ids_construction [c4Group]).1.2 c4Group (by decide)
      ⟨0, [21, 22]⟩ (by decide) 1 (by decide)⟩

/-! ### C5 and C7: result assembly, sampler cleanup, disappeared-token hint -/

/-- Finish reason of a hypothesis (spec §3; `GenerationFinishReason` is
declared outside src/). -/
inductive FinishReason where
  | stillRunning
  | length
  | stop
  | other
  deriving Repr, DecidableEq

/-- A finished hypothesis as result assembly sees it.  Modelled from the
spec: `get_beam_search_score` and `get_cumulative_log_probs` live outside
src/, so the two scores are opaque per-hypothesis attributes; the claims
only concern which of the two is selected, not their numeric values (the
C++ carries them as `float`). -/
structure FinSeq where
  generated_ids : List Int
  finish_reason : FinishReason
  beam_search_score : Int
  cumulative_log_probs : Int
  deriving Repr, DecidableEq

/-- A sequence group as result assembly sees it (src/lm_encoding.cpp
lines 168-191): sampling parameters reduced to the two attributes the code
reads, the dropped-handle flag, and the finished hypotheses in the order
`get_finished_sequences` returns them. -/
structure ResultGroup where
  request_id : Nat
  num_return_sequences : Nat
  is_beam_search : Bool
  handle_dropped : Bool
  finished : List FinSeq
  deriving Repr, DecidableEq

/-- Embeds src/lm_encoding.cpp:168-181 for one group: the first
`min(num_return_sequences, finished.size())` finished hypotheses, each
paired with the beam-search score under beam search and the cumulative
log-probability otherwise. -/
def group_outputs (g : ResultGroup) : List (List Int × Int) :=
  (g.finished.take (min g.num_return_sequences g.finished.length)).map fun s =>
    (s.generated_ids,
     if g.is_beam_search then s.beam_search_score else s.cumulative_log_probs)

/-- Embeds the full result-assembly loop: `results.tokens` and
`results.scores` accumulated over all original groups. -/
def assemble_results (groups : List ResultGroup) : List (List Int) × List Int :=
  (groups.flatMap fun g => (group_outputs g).map Prod.fst,
   groups.flatMap fun g => (group_outputs g).map Prod.snd)

/-- Modelled from the spec: `Sampler::clear_request_info` (outside src/)
releases the per-request bookkeeping for one request id (spec §6); the
sampler's bookkeeping is modelled as the list of request ids it holds
state for. -/
def clear_request_info (sampler : List Nat) (g : ResultGroup) : List Nat :=
  sampler.filter fun rid => rid ≠ g.request_id

/-- Embeds src/lm_encoding.cpp:184-185: clear the sampler's bookkeeping for
every original group. -/
def release_all (sampler : List Nat) (groups : List ResultGroup) : List Nat :=
  groups.foldl clear_request_info sampler

/-- Embeds src/lm_encoding.cpp:187-193: the optional
`last_token_of_best_sequence`.  It is set exactly when the first finished
hypothesis of the first group finished with reason LENGTH or the first
group's handle was dropped, and it then holds `results.tokens[0].back()`.
The raw accesses `sequence_groups[0]`, `get_finished_sequences()[0]` and
`results.tokens[0].back()` are modelled with `Option` accessors; the C5
theorem's hypotheses keep them all in bounds. -/
def last_token_of_best_sequence (groups : List ResultGroup) : Option Int :=
  match groups.head? with
  | none => none
  | some g0 =>
    match g0.finished.head? with
    | none => none
    | some s0 =>
      if s0.finish_reason = FinishReason.length ∨ g0.handle_dropped = true then
        (assemble_results groups).1.head?.bind List.getLast?
      else none

theorem mem_release_all (sampler : List Nat) :
    ∀ (groups : List ResultGroup) (x : Nat),
      x ∈ release_all sampler groups → x ∈ sampler := by
  intro groups
  induction groups generalizing sampler with
  | nil => intro x hx; exact hx
  | cons g gs ih =>
    intro x hx
    have := ih (clear_request_info sampler g) x hx
    exact List.mem_of_mem_filter this

theorem release_all_removes (sampler : List Nat) (groups : List ResultGroup) :
    ∀ g ∈ groups, g.request_id ∉ release_all sampler groups := by
  induction groups generalizing sampler with
  | nil => intro g hg; exact absurd hg (by simp)
  | cons g0 gs ih =>
    intro g hg
    rcases List.mem_cons.mp hg with rfl | hg'
    · intro hmem
      have hin : g.request_id ∈ clear_request_info sampler g :=
        mem_release_all _ gs _ hmem
      have := List.of_mem_filter hin
      simp at this
    · exact ih (clear_request_info sampler g0) g hg'

/-- C7: for every original group exactly
`min(num_return_sequences, finished.length)` hypotheses are returned, in
order, each carrying its full generated token list and the beam-search
score under beam search (else the cumulative log-probability); the token
and score lists cover all groups, and afterwards the sampler's bookkeeping
holds no group's request id. -/
theorem C7_result_assembly (groups : List ResultGroup) (sampler : List Nat) :
    ((assemble_results groups).1.length
        = (groups.map fun g => min g.num_return_sequences g.finished.length).sum
     ∧ (assemble_results groups).2.length
        = (groups.map fun g => min g.num_return_sequences g.finished.length).sum)
    ∧ (∀ g ∈ groups,
        (group_outputs g).length = min g.num_return_sequences g.finished.length
        ∧ ∀ i (hi : i < min g.num_return_sequences g.finished.length),
            (group_outputs g).getD i ([], 0)
              = ((g.finished.get ⟨i, by omega⟩).generated_ids,
                 if g.is_beam_search
                 then (g.finished.get ⟨i, by omega⟩).beam_search_score
                 else (g.finished.get ⟨i, by omega⟩).cumulative_log_probs))
    ∧ ∀ g ∈ groups, g.request_id ∉ release_all sampler groups := by
  refine ⟨⟨?_, ?_⟩, ?_, release_all_removes sampler groups⟩
  · unfold assemble_results
    rw [length_flatMap]
    congr 1
    apply List.map_congr_left
    intro g _
    unfold group_outputs
    simp
  · unfold assemble_results
    rw [length_flatMap]
    congr 1
    apply List.map_congr_left
    intro g _
    unfold group_outputs
    simp
  · intro g _
    have hlen : (group_outputs g).length
        = min g.num_return_sequences g.finished.length := by
      unfold group_outputs; simp
    refine ⟨hlen, ?_⟩
    intro i hi
    unfold group_outputs
    rw [getD_of_lt _ i ([], 0) (by unfold group_outputs at hlen; omega)]
    simp only [List.get_eq_getElem, List.getElem_map]
    rw [List.getElem_take]

def c7GroupA : ResultGroup :=
  ⟨3, 2, true, false,
    [⟨[5, 6], FinishReason.stop, 10, 20⟩, ⟨[7], FinishReason.length, 11, 21⟩,
     ⟨[8], FinishReason.stop, 12, 22⟩]⟩

def c7GroupB : ResultGroup :=
  ⟨4, 3, false, false, [⟨[9], FinishReason.stop, 13, 23⟩]⟩

/-- C7 witness: two concrete groups — a beam-search group returning 2 of 3
finished hypotheses with beam scores, and a non-beam group returning its
single hypothesis with the cumulative log-probability — with the sampler
bookkeeping cleared for both. -/
theorem C7_witness :
    c7GroupA ∈ [c7GroupA, c7GroupB] ∧ (1 : Nat) < min 2 3 ∧
    ((assemble_results [c7GroupA, c7GroupB]).1.length
        = ([c7GroupA, c7GroupB].map fun g =>
            min g.num_return_sequences g.finished.length).sum
     ∧ (group_outputs c7GroupA).getD 1 ([], 0)
        = ((c7GroupA.finished.get ⟨1, by decide⟩).generated_ids,
           if c7GroupA.is_beam_search
           then (c7GroupA.finished.get ⟨1, by decide⟩).beam_search_score
           else (c7GroupA.finished.get ⟨1, by decide⟩).cumulative_log_probs)
     ∧ ∀ g ∈ [c7GroupA, c7GroupB],
         g.request_id ∉ release_all [3, 4, 9] [c7GroupA, c7GroupB]) :=
  ⟨by decide, by decide,
    (C7_result_assembly [c7GroupA, c7GroupB] [3, 4, 9]).1.1,
    (C7_result_assembly [c7GroupA, c7GroupB] [3, 4, 9]).2.1 c7GroupA
      (by decide) |>.2 1 (by decide),
    (C7_result_assembly [c7GroupA, c7GroupB] [3, 4, 9]).2.2⟩

theorem assemble_head (g0 : ResultGroup) (gs : List ResultGroup)
    (s0 : FinSeq) (ss : List FinSeq)
    (hfin : g0.finished = s0 :: ss) (hnrs : 1 ≤ g0.num_return_sequences) :
    (assemble_results (g0 :: gs)).1.head? = some s0.generated_ids := by
  obtain ⟨k, hk⟩ : ∃ k, min g0.num_return_sequences g0.finished.length = k + 1 := by
    refine ⟨min g0.num_return_sequences g0.finished.length - 1, ?_⟩
    rw [hfin]
    simp only [List.length_cons]
    omega
  unfold assemble_results group_outputs
  rw [List.flatMap_cons, hfin, hk] at *
  simp [List.take_succ_cons]

/-- C5: with the first group's finished list headed by `s0` (its best
hypothesis), at least one returned sequence, and a non-empty generated
list, the disappeared-token hint is present iff `s0` finished due to the
length limit or the first group's handle was dropped, and it then equals
the last generated token of `s0`. -/
theorem C5_disappeared_token_hint
    (g0 : ResultGroup) (gs : List ResultGroup) (s0 : FinSeq) (ss : List FinSeq)
    (hfin : g0.finished = s0 :: ss) (hnrs : 1 ≤ g0.num_return_sequences)
    (hgen : s0.generated_ids ≠ []) :
    ((last_token_of_best_sequence (g0 :: gs)).isSome = true
        ↔ (s0.finish_reason = FinishReason.length ∨ g0.handle_dropped = true))
    ∧ ((s0.finish_reason = FinishReason.length ∨ g0.handle_dropped = true) →
        last_token_of_best_sequence (g0 :: gs)
          = some (s0.generated_ids.getLast hgen)) := by
  have hhead := assemble_head g0 gs s0 ss hfin hnrs
  have hbody : last_token_of_best_sequence (g0 :: gs)
      = if s0.finish_reason = FinishReason.length ∨ g0.handle_dropped = true then
          (assemble_results (g0 :: gs)).1.head?.bind List.getLast?
        else none := by
    unfold last_token_of_best_sequence
    simp only [List.head?_cons, hfin]
  by_cases hcond : s0.finish_reason = FinishReason.length ∨ g0.handle_dropped = true
  · rw [hbody, if_pos hcond, hhead]
    simp only [Option.some_bind]
    rw [List.getLast?_eq_getLast s0.generated_ids hgen]
    exact ⟨by simp [hcond], fun _ => rfl⟩
  · rw [hbody, if_neg hcond]
    exact ⟨by simp [hcond], fun h => absurd h hcond⟩

def c5Group : ResultGroup :=
  ⟨0, 1, false, false, [⟨[41, 42], FinishReason.length, 0, -3⟩]⟩

/-- C5 witness: a single group whose best hypothesis finished on the length
limit; the hint is present and equals its last generated token, 42. -/
theorem C5_witness :
    c5Group.finished = [⟨[41, 42], FinishReason.length, 0, -3⟩]
    ∧ (1 : Nat) ≤ c5Group.num_return_sequences
    ∧ ([41, 42] : List Int) ≠ []
    ∧ (((last_token_of_best_sequence [c5Group]).isSome = true
        ↔ ((⟨[41, 42], FinishReason.length, 0, -3⟩ : FinSeq).finish_reason
              = FinishReason.length ∨ c5Group.handle_dropped = true))
       ∧ (((⟨[41, 42], FinishReason.length, 0, -3⟩ : FinSeq).finish_reason
              = FinishReason.length ∨ c5Group.handle_dropped = true) →
          last_token_of_best_sequence [c5Group]
            = some (([41, 42] : List Int).getLast (by decide)))) :=
  ⟨by decide, by decide, by decide,
    C5_disappeared_token_hint c5Group [] ⟨[41, 42], FinishReason.length, 0, -3⟩ []
      (by decide) (by decide) (by decide)⟩

/-! ### C6 and C10: the VLM pipeline facade -/

/-- Embeds the start-of-turn setup of `VLMPipelineImpl::generate`
(src/visual_language/pipeline.cpp:174 and 190-191): `history_size` is
computed from the engine's *current* attention-mask column count minus
`to_remove_from_hist` — it is a function of those two values only, with no
cached-state input — and the mask fed to the compute engine is freshly
allocated with `history_size + inputs_embeds_size` entries, all set to 1. -/
def vlm_turn_setup (mask_cols to_remove inputs_embeds_size : Nat) :
    Nat × List Int :=
  let history_size := mask_cols - to_remove
  (history_size, List.replicate (history_size + inputs_embeds_size) 1)

/-- C6: at the start of a turn, `history_size` equals the current mask
length minus `to_remove_from_hist`, and the fed attention mask has exactly
`history_size + inputs_embeds_size` entries, all ones — so
`history_size + current_turn_input_size` equals the fed mask's length. -/
theorem C6_history_size_invariant (mask_cols to_remove inputs_embeds_size : Nat)
    (hle : to_remove ≤ mask_cols) :
    (vlm_turn_setup mask_cols to_remove inputs_embeds_size).1
        = mask_cols - to_remove
    ∧ (vlm_turn_setup mask_cols to_remove inputs_embeds_size).1
          + inputs_embeds_size
        = (vlm_turn_setup mask_cols to_remove inputs_embeds_size).2.length
    ∧ ∀ x ∈ (vlm_turn_setup mask_cols to_remove inputs_embeds_size).2,
        x = 1 := by
  refine ⟨rfl, ?_, ?_⟩
  · unfold vlm_turn_setup
    simp
  · intro x hx
    unfold vlm_turn_setup at hx
    exact List.eq_of_mem_replicate hx

/-- C6 witness: a turn starting from a 7-column engine mask with 2 trailing
tokens to evict and a 4-token current input. -/
theorem C6_witness :
    (2 : Nat) ≤ 7 ∧
    ((vlm_turn_setup 7 2 4).1 = 7 - 2
     ∧ (vlm_turn_setup 7 2 4).1 + 4 = (vlm_turn_setup 7 2 4).2.length
     ∧ ∀ x ∈ (vlm_turn_setup 7 2 4).2, x = 1) :=
  ⟨by decide, C6_history_size_invariant 7 2 4 (by decide)⟩

/-- Engine-visible language-model state: whether the internal state has
just been reset, and the attention-mask tensor's shape. -/
structure LangEngineState where
  state_reset : Bool
  mask_rows : Nat
  mask_cols : Nat
  deriving Repr, DecidableEq

/-- Embeds the construction-time initialisation of both `VLMPipelineImpl`
constructors (src/visual_language/pipeline.cpp:100 and 137):
`m_language.get_tensor("attention_mask").set_shape({1, 0})` on a fresh
infer request. -/
def lang_state_at_construction : LangEngineState :=
  { state_reset := true, mask_rows := 1, mask_cols := 0 }

/-- Embeds the tail of `VLMPipelineImpl::generate`
(src/visual_language/pipeline.cpp:223-224): whatever state the decode loop
left the engine in, the facade ends the turn with
`m_language.reset_state()` and `set_shape({1, 0})` before returning. -/
def vlm_generate_finish (mid : LangEngineState) : LangEngineState :=
  { mid with state_reset := true, mask_rows := 1, mask_cols := 0 }

/-- C10: for every decode-loop effect and every pre-call engine state, a
completed `generate` call leaves the engine exactly in the construction
state — internal state reset and attention mask of shape `(1, 0)` — so the
next call's `history_size` computation observes a zero-length mask. -/
theorem C10_generate_resets_engine_state
    (decode_effect : LangEngineState → LangEngineState) (s : LangEngineState) :
    vlm_generate_finish (decode_effect s) = lang_state_at_construction
    ∧ (vlm_generate_finish (decode_effect s)).state_reset = true
    ∧ (vlm_generate_finish (decode_effect s)).mask_rows = 1
    ∧ (vlm_generate_finish (decode_effect s)).mask_cols = 0
    ∧ (vlm_turn_setup (vlm_generate_finish (decode_effect s)).mask_cols 0
        inputs_size).1 = 0 := by
  exact ⟨rfl, rfl, rfl, rfl, rfl⟩

/-! ### C9: behaviour on an empty `sequence_groups` input -/

/-- The observable control-flow record of one `get_lm_encoded_results`
call: whether the prompt-step engine call ran (src/lm_encoding.cpp:87 runs
unconditionally), whether the generation loop body executed at least once
(line 102: `while (!active_sequence_groups.empty())` on the initial copy of
the input), how many groups result assembly visits, and the outcome of the
final hint computation (lines 188-191), whose raw accesses
`sequence_groups[0]`, `get_finished_sequences()[0]` and
`results.tokens[0].back()` are modelled as failing explicitly when out of
bounds. -/
structure LMRunTrace where
  prompt_infer_ran : Bool
  loop_entered : Bool
  assembly_groups : Nat
  hint_access : Except String (Option Int)
  deriving Repr

def get_lm_encoded_results_trace (groups : List ResultGroup) : LMRunTrace :=
  { prompt_infer_ran := true
    loop_entered := !groups.isEmpty
    assembly_groups := groups.length
    hint_access :=
      match groups.head? with
      | none => Except.error "sequence_groups[0] out of bounds"
      | some g0 =>
        match g0.finished.head? with
        | none => Except.error "finished_sequences[0] out of bounds"
        | some s0 =>
          if s0.finish_reason = FinishReason.length ∨ g0.handle_dropped = true then
            match (assemble_results groups).1.head? with
            | none => Except.error "results.tokens[0] out of bounds"
            | some toks =>
              match toks.getLast? with
              | none => Except.error "back() on empty token list"
              | some t => Except.ok (some t)
          else Except.ok none }

/-- C9 counterexample: on the empty input the claimed rejection does not
happen — the prompt-step engine call runs anyway, so the empty input is
not "detected and reported rather than the function proceeding into the
prompt step". -/
theorem C9_counterexample :
    ¬ ((get_lm_encoded_results_trace []).prompt_infer_ran = false) := by
  decide

/-- C9 (amended): an empty `sequence_groups` input is not rejected at all.
The call performs the prompt-step engine invocation, skips the generation
loop and visits zero groups in result assembly, and then fails with an
out-of-bounds access at `sequence_groups[0]` while computing the
disappeared-token hint. -/
theorem C9_empty_input_not_rejected :
    (get_lm_encoded_results_trace []).prompt_infer_ran = true
    ∧ (get_lm_encoded_results_trace []).loop_entered = false
    ∧ (get_lm_encoded_results_trace []).assembly_groups = 0
    ∧ (get_lm_encoded_results_trace []).hint_access
        = Except.error "sequence_groups[0] out of bounds" :=
  ⟨rfl, rfl, rfl, rfl⟩

end OvGenai
